import Mathlib

/-!
Verification of the Bonsai tree state engine against its design document.

The repository ships the design document (docs) and the declaration file
src/bonsai/createStore.d.ts; the implementation files (tree.ts,
middleware.ts, createStore.ts) are not part of the provided sources, so the
operations below are modelled from the specification text and settled
against that model.
-/

namespace Bonsai

/-- Values of the state tree: a scalar (string, number, boolean, null), a
nested mapping from string keys to values, or an ordered sequence.
Mappings are association lists in key-insertion order, mirroring the key
order of the underlying script objects. -/
inductive Val where
  | vstr : String → Val
  | vnat : Nat → Val
  | vbool : Bool → Val
  | vnull : Val
  | vobj : List (String × Val) → Val
  | varr : List Val → Val

/-- First-match lookup of a key in a mapping's field list. -/
def lookupKey : List (String × Val) → String → Option Val
  | [], _ => none
  | (k', v) :: rest, k => if k' = k then some v else lookupKey rest k

/-- Assignment of a key in a mapping's field list: overwrite the existing
entry in place, or append a new entry at the end, as script object
assignment does. -/
def setKey : List (String × Val) → String → Val → List (String × Val)
  | [], k, v => [(k, v)]
  | (k', v') :: rest, k, v =>
    if k' = k then (k, v) :: rest else (k', v') :: setKey rest k v

/-- Modelled from the spec: the shallow merge of two mappings (setAt in the
missing tree.ts); keys of the new mapping overwrite, all other existing
keys are preserved, new keys are appended. -/
def mergeObj (old news : List (String × Val)) : List (String × Val) :=
  news.foldl (fun acc kv => setKey acc kv.1 kv.2) old

/-- Modelled from the spec: the value actually committed at a path — a
shallow merge when both the previous value and the incoming value are
mappings, otherwise an outright replacement (spec section 4.1). -/
def commitValO : Option Val → Val → Val
  | some (Val.vobj old), Val.vobj news => Val.vobj (mergeObj old news)
  | _, v => v

/-- Whether the previous value and the incoming value are both mappings. -/
def bothObj : Option Val → Val → Bool
  | some (Val.vobj _), Val.vobj _ => true
  | _, _ => false

/-- Split a character list on the slash character. -/
def splitSegs : List Char → List Char → List String
  | [], acc => [String.mk acc.reverse]
  | c :: cs, acc =>
    if c = '/' then String.mk acc.reverse :: splitSegs cs []
    else splitSegs cs (c :: acc)

/-- Modelled from the spec: parse in the missing path utilities — split a
slash-delimited path string into segments, collapsing empty segments, so
that the empty string denotes the root (empty sequence). -/
def parse (s : String) : List String :=
  (splitSegs s.data []).filter (fun seg => seg ≠ "")

/-- Modelled from the spec: wildcard pattern matching in the missing path
utilities — true iff both lists have the same segment count and at each
position the pattern segment is the wildcard token or equals the concrete
segment exactly. -/
def matchesPat : List String → List String → Bool
  | [], [] => true
  | p :: ps, c :: cs => (p == "*" || p == c) && matchesPat ps cs
  | _, _ => false

/-- Modelled from the spec: getAt in the missing tree.ts — walk the segment
sequence through nested mappings, returning none (undefined) the instant a
segment is missing or the current value is not a mapping. -/
def getAt : Val → List String → Option Val
  | v, [] => some v
  | v, s :: rest =>
    match v with
    | Val.vobj kvs =>
      match lookupKey kvs s with
      | some c => getAt c rest
      | none => none
    | _ => none

/-- Lift of getAt to an optional starting value. -/
def getAtO : Option Val → List String → Option Val
  | none, _ => none
  | some v, segs => getAt v segs

/-- Field list of an optional value, empty when it is not a mapping. -/
def objFields : Option Val → List (String × Val)
  | some (Val.vobj kvs) => kvs
  | _ => []

/-- Modelled from the spec: setAt in the missing tree.ts, generalized to an
optional previous value — rebuild the mappings along the path (creating
intermediate mappings as needed) and place the committed value at the
target, leaving every field off the path untouched. -/
def setAtO : Option Val → List String → Val → Val
  | old, [], v => commitValO old v
  | old, s :: rest, v =>
    Val.vobj (setKey (objFields old) s (setAtO (lookupKey (objFields old) s) rest v))

/-- Modelled from the spec: setAt in the missing tree.ts — a new root with
the value placed at the path. -/
def setAt (root : Val) (segs : List String) (v : Val) : Val :=
  setAtO (some root) segs v

/-- Modelled from the spec: divergence of two paths — the two segment lists
differ at some common position, i.e. neither is an ancestor, a descendant,
nor an exact match of the other. -/
def diverges : List String → List String → Bool
  | a :: as, b :: bs => if a = b then diverges as bs else true
  | _, _ => false

/-- Transcribed from the spec's words for getAt: a path is missing when "a
segment is missing or the current value is not a mapping" at some point of
the walk; the empty path is never missing. -/
def pathMissing : Val → List String → Bool
  | _, [] => false
  | v, s :: rest =>
    match v with
    | Val.vobj kvs =>
      match lookupKey kvs s with
      | some c => pathMissing c rest
      | none => true
    | _ => true

/-- Result of one middleware stage: an accepted (possibly transformed)
value, the literal rejection signal (boolean false), or a validation
rejection carrying a reason string. -/
inductive MWResult where
  | accept : Val → MWResult
  | reject : MWResult
  | rejectReason : String → MWResult

/-- A middleware receives the target path, the candidate new value and the
previous value. -/
abbrev Middleware : Type := String → Val → Option Val → MWResult

/-- Outcome of a set operation: a committed value, or a blocked update with
an optional reason. -/
inductive SetOutcome where
  | committed : Val → SetOutcome
  | blocked : Option String → SetOutcome

/-- Modelled from the spec: the middleware pipeline of the missing
middleware.ts — stages run strictly in registration order, each receiving
the output of the previous one; any rejection halts the chain at once. -/
def runPipeline : List Middleware → String → Val → Option Val → SetOutcome
  | [], _, v, _ => SetOutcome.committed v
  | m :: ms, p, v, prev =>
    match m p v prev with
    | MWResult.accept v' => runPipeline ms p v' prev
    | MWResult.reject => SetOutcome.blocked none
    | MWResult.rejectReason s => SetOutcome.blocked (some s)

/-- A subscription: a pattern plus the identity token handed back by
subscribe (the callback itself is identified by this token; a delivered
notification is recorded as a token-value pair). -/
structure Subscription where
  id : Nat
  pattern : List String
deriving DecidableEq

/-- A tree state engine instance: the root value, the ordered middleware
pipeline, the subscription registry and the next fresh identity token. -/
structure Engine where
  root : Val
  middleware : List Middleware
  subs : List Subscription
  nextId : Nat

/-- Modelled from the spec: initTreeState — an engine starting from the
given initial root and ordered middleware sequence, with an empty
subscription registry. -/
def initTreeState (initialState : Val) (middleware : List Middleware) : Engine :=
  { root := initialState, middleware := middleware, subs := [], nextId := 0 }

/-- Modelled from the spec: get — the value at the parsed path, none for a
nonexistent path. -/
def Engine.get (e : Engine) (path : String) : Option Val :=
  getAt e.root (parse path)

/-- Result of a set call: the outcome reported to the caller and the
notifications delivered to matching subscriptions, each carrying the newly
committed value at the exact target path. -/
structure SetResult where
  outcome : SetOutcome
  notifications : List (Nat × Val)

/-- Modelled from the spec: set — run the middleware pipeline against the
path, the candidate value and the previous value; on acceptance commit via
setAt and notify every subscription whose pattern matches the path; on
rejection leave the engine unchanged and notify nobody. -/
def Engine.set (e : Engine) (path : String) (v : Val) : SetResult × Engine :=
  match runPipeline e.middleware path v (getAt e.root (parse path)) with
  | SetOutcome.blocked r => (⟨SetOutcome.blocked r, []⟩, e)
  | SetOutcome.committed v' =>
    (⟨SetOutcome.committed (commitValO (getAt e.root (parse path)) v'),
      (e.subs.filter (fun s => matchesPat s.pattern (parse path))).map
        (fun s => (s.id, commitValO (getAt e.root (parse path)) v'))⟩,
     { e with root := setAt e.root (parse path) v' })

/-- Modelled from the spec: subscribe — register a subscription under a
fresh identity token and hand the token back (it stands for the returned
unsubscribe closure). -/
def Engine.subscribe (e : Engine) (pattern : String) : Nat × Engine :=
  (e.nextId,
   { e with subs := e.subs ++ [⟨e.nextId, parse pattern⟩], nextId := e.nextId + 1 })

/-- Modelled from the spec: the unsubscribe closure returned by subscribe —
remove exactly the registration carrying this identity token. -/
def Engine.unsubscribe (e : Engine) (i : Nat) : Engine :=
  { e with subs := e.subs.filter (fun s => s.id ≠ i) }

/-- A pending debounce entry: the path, the provisionally held value and
the moment the timer expires. -/
structure DebEntry where
  path : String
  value : Val
  deadline : Nat

/-- Modelled from the spec: one arrival at createDebounceMiddleware's state
(missing middleware.ts) — timers whose deadline has passed commit their
held value, any outstanding timer for the arriving path is cancelled
(superseded), and a fresh timer for the arriving value starts. -/
def debounceStep (d : Nat) (pend : List DebEntry) (t : Nat) (p : String) (v : Val) :
    List (String × Val) × List DebEntry :=
  ((pend.filter (fun en => en.deadline ≤ t)).map (fun en => (en.path, en.value)),
   ((pend.filter (fun en => t < en.deadline)).filter (fun en => en.path ≠ p)) ++
     [⟨p, v, t + d⟩])

/-- Modelled from the spec: a whole run of the debounce middleware over a
time-ordered list of (time, path, value) arrivals, returning the committed
(path, value) pairs in commit order; at the end of time every remaining
pending timer fires. -/
def debounceRun (d : Nat) : List (Nat × String × Val) → List DebEntry → List (String × Val)
  | [], pend => pend.map (fun en => (en.path, en.value))
  | (t, p, v) :: evs, pend =>
    (debounceStep d pend t p v).1 ++ debounceRun d evs (debounceStep d pend t p v).2

/-- Notifications produced by a list of commits: each commit notifies every
subscription whose pattern matches its path, with the committed value. -/
def commitsToNotifs (subs : List Subscription) : List (String × Val) → List (Nat × Val)
  | [] => []
  | c :: cs =>
    (subs.filter (fun s => matchesPat s.pattern (parse c.1))).map (fun s => (s.id, c.2)) ++
      commitsToNotifs subs cs

/-- A scoped flat store: a single-level state record, the identity tokens
of its subscribers, and the next fresh subscriber token. -/
structure FlatStore where
  state : List (String × Val)
  subIds : List Nat
  nextSubId : Nat

/-- The empty store a fresh createBonsaiStore call starts from. -/
def emptyStore : FlatStore := ⟨[], [], 0⟩

/-- Modelled from the spec: store.set of the missing createStore.ts — merge
the partial record shallowly into the current state. -/
def FlatStore.set (st : FlatStore) (p : List (String × Val)) : FlatStore :=
  { st with state := mergeObj st.state p }

/-- Modelled from the spec: store.get of the missing createStore.ts. -/
def FlatStore.get (st : FlatStore) : List (String × Val) := st.state

/-- The collection of all scoped stores: each store identity maps to its
own isolated store instance. -/
structure World where
  stores : Nat → FlatStore
  nextStoreId : Nat

/-- Modelled from the spec: createBonsaiStore — allocate a fresh, empty,
isolated store with its own state, middleware and subscription system, and
return its identity. -/
def createBonsaiStore (w : World) : Nat × World :=
  (w.nextStoreId,
   ⟨fun i => if i = w.nextStoreId then emptyStore else w.stores i, w.nextStoreId + 1⟩)

/-- Modelled from the spec: a set call on one scoped store — update that
store's state by shallow merge and notify that store's subscribers only;
notifications are (store identity, subscriber token) pairs. -/
def storeSet (w : World) (i : Nat) (p : List (String × Val)) : World × List (Nat × Nat) :=
  (⟨fun j => if j = i then (w.stores i).set p else w.stores j, w.nextStoreId⟩,
   (w.stores i).subIds.map (fun sid => (i, sid)))

/-- Observation of one scoped store's state inside a world. -/
def storeGet (w : World) (i : Nat) : List (String × Val) := (w.stores i).state

/-! Helper lemmas about the association-list primitives. -/

theorem lookupKey_setKey_self (kvs : List (String × Val)) (k : String) (v : Val) :
    lookupKey (setKey kvs k v) k = some v := by
  induction kvs with
  | nil => simp [setKey, lookupKey]
  | cons kv rest ih =>
    obtain ⟨k', v'⟩ := kv
    by_cases h : k' = k
    · simp [setKey, lookupKey, h]
    · simp [setKey, lookupKey, h, ih]

theorem lookupKey_setKey_ne (kvs : List (String × Val)) (k k' : String) (v : Val)
    (h : k' ≠ k) : lookupKey (setKey kvs k v) k' = lookupKey kvs k' := by
  have h2 : ¬ (k = k') := fun hh => h hh.symm
  induction kvs with
  | nil => simp [setKey, lookupKey, h2]
  | cons kv rest ih =>
    obtain ⟨k0, v0⟩ := kv
    by_cases h0 : k0 = k
    · subst h0
      simp [setKey, lookupKey, h2]
    · by_cases h1 : k0 = k'
      · simp [setKey, lookupKey, h0, h1, h2, h]
      · simp [setKey, lookupKey, h0, h1, ih]

theorem lookupKey_eq_none_of_not_mem (kvs : List (String × Val)) (k : String)
    (h : k ∉ kvs.map Prod.fst) : lookupKey kvs k = none := by
  induction kvs with
  | nil => rfl
  | cons kv rest ih =>
    obtain ⟨k0, v0⟩ := kv
    simp only [List.map_cons, List.mem_cons] at h
    push_neg at h
    simp [lookupKey, Ne.symm h.1, ih h.2]

theorem lookupKey_mergeObj (old news : List (String × Val)) (k : String)
    (hnd : (news.map Prod.fst).Nodup) :
    lookupKey (mergeObj old news) k =
      match lookupKey news k with
      | some v => some v
      | none => lookupKey old k := by
  induction news generalizing old with
  | nil => simp [mergeObj, lookupKey]
  | cons kv rest ih =>
    obtain ⟨k0, v0⟩ := kv
    simp only [List.map_cons, List.nodup_cons] at hnd
    have hstep : mergeObj old ((k0, v0) :: rest) = mergeObj (setKey old k0 v0) rest := rfl
    rw [hstep, ih _ hnd.2]
    by_cases h : k0 = k
    · subst h
      have hrest : lookupKey rest k0 = none :=
        lookupKey_eq_none_of_not_mem _ _ (by simpa using hnd.1)
      simp [lookupKey, hrest, lookupKey_setKey_self]
    · simp [lookupKey, h, lookupKey_setKey_ne old k0 k v0 (fun hh => h hh.symm)]

theorem filterTwice {α : Type} (l : List α) (p : α → Bool) :
    (l.filter p).filter p = l.filter p := by
  induction l with
  | nil => rfl
  | cons a rest ih =>
    by_cases h : p a
    · simp [List.filter_cons, h, ih]
    · simp [List.filter_cons, h, ih]

/-! Helper lemmas about path walking and rebuilding. -/

theorem getAtO_some (v : Val) (segs : List String) : getAtO (some v) segs = getAt v segs := rfl

theorem getAtO_nil (old : Option Val) : getAtO old [] = old := by
  cases old <;> rfl

theorem getAtO_cons (old : Option Val) (s : String) (rest : List String) :
    getAtO old (s :: rest) = getAtO (lookupKey (objFields old) s) rest := by
  match old with
  | none => rfl
  | some (Val.vobj kvs) =>
    show getAt (Val.vobj kvs) (s :: rest) = _
    rw [getAt]
    cases h : lookupKey kvs s with
    | none => simp [objFields, h, getAtO]
    | some c => simp [objFields, h, getAtO]
  | some (Val.vstr a) => rfl
  | some (Val.vnat a) => rfl
  | some (Val.vbool a) => rfl
  | some Val.vnull => rfl
  | some (Val.varr a) => rfl

theorem getAt_setAtO (segs : List String) (old : Option Val) (v : Val) :
    getAt (setAtO old segs v) segs = some (commitValO (getAtO old segs) v) := by
  induction segs generalizing old with
  | nil => rw [getAtO_nil]; rfl
  | cons s rest ih =>
    rw [setAtO]
    rw [show getAt (Val.vobj (setKey (objFields old) s
          (setAtO (lookupKey (objFields old) s) rest v))) (s :: rest) =
        getAt (setAtO (lookupKey (objFields old) s) rest v) rest from by
      rw [getAt, lookupKey_setKey_self]]
    rw [ih, getAtO_cons]

theorem getAt_setAtO_diverges (segs q : List String) (old : Option Val) (v : Val)
    (h : diverges segs q = true) :
    getAt (setAtO old segs v) q = getAtO old q := by
  induction segs generalizing q old with
  | nil => simp [diverges] at h
  | cons s ss ih =>
    cases q with
    | nil => simp [diverges] at h
    | cons t qs =>
      rw [setAtO]
      by_cases hst : s = t
      · subst hst
        have hdiv : diverges ss qs = true := by
          simpa [diverges] using h
        rw [show getAt (Val.vobj (setKey (objFields old) s
              (setAtO (lookupKey (objFields old) s) ss v))) (s :: qs) =
            getAt (setAtO (lookupKey (objFields old) s) ss v) qs from by
          rw [getAt, lookupKey_setKey_self]]
        rw [ih qs _ hdiv, getAtO_cons]
      · rw [getAtO_cons]
        rw [show getAt (Val.vobj (setKey (objFields old) s
              (setAtO (lookupKey (objFields old) s) ss v))) (t :: qs) =
            (match lookupKey (objFields old) t with
             | some c => getAt c qs
             | none => none) from by
          rw [getAt, lookupKey_setKey_ne _ _ _ _ (fun hh => hst hh.symm)]]
        cases hl : lookupKey (objFields old) t with
        | none => simp [getAtO]
        | some c => simp [getAtO]

theorem matchesPat_refl (l : List String) : matchesPat l l = true := by
  induction l with
  | nil => rfl
  | cons a rest ih => simp [matchesPat, ih]

/-! Helper lemmas about the pipeline and the engine's set. -/

theorem runPipeline_append (ms ns : List Middleware) (p : String) (v : Val)
    (prev : Option Val) :
    runPipeline (ms ++ ns) p v prev =
      match runPipeline ms p v prev with
      | SetOutcome.committed v' => runPipeline ns p v' prev
      | SetOutcome.blocked r => SetOutcome.blocked r := by
  induction ms generalizing v with
  | nil => rfl
  | cons m rest ih =>
    show runPipeline (m :: (rest ++ ns)) p v prev = _
    rw [runPipeline, runPipeline]
    cases m p v prev with
    | accept v' => exact ih v'
    | reject => rfl
    | rejectReason s => rfl

theorem set_of_blocked (e : Engine) (path : String) (v : Val) (r : Option String)
    (h : runPipeline e.middleware path v (getAt e.root (parse path)) =
      SetOutcome.blocked r) :
    e.set path v = (⟨SetOutcome.blocked r, []⟩, e) := by
  rw [Engine.set, h]

theorem set_of_committed (e : Engine) (path : String) (v v' : Val)
    (h : runPipeline e.middleware path v (getAt e.root (parse path)) =
      SetOutcome.committed v') :
    e.set path v =
      (⟨SetOutcome.committed (commitValO (getAt e.root (parse path)) v'),
        (e.subs.filter (fun s => matchesPat s.pattern (parse path))).map
          (fun s => (s.id, commitValO (getAt e.root (parse path)) v'))⟩,
       { e with root := setAt e.root (parse path) v' }) := by
  rw [Engine.set, h]

theorem set_get_same_of_no_middleware (e : Engine) (path : String) (v : Val)
    (h : e.middleware = []) :
    (e.set path v).2.get path = some (commitValO (e.get path) v) := by
  have hrun : runPipeline e.middleware path v (getAt e.root (parse path)) =
      SetOutcome.committed v := by rw [h]; rfl
  rw [set_of_committed e path v v hrun]
  show getAt (setAt e.root (parse path) v) (parse path) = _
  rw [setAt, getAt_setAtO, getAtO_some]
  rfl

theorem set_get_frame (e : Engine) (p q : String) (w : Val)
    (h : diverges (parse q) (parse p) = true) :
    ((e.set q w).2).get p = e.get p := by
  cases hr : runPipeline e.middleware q w (getAt e.root (parse q)) with
  | blocked r => rw [set_of_blocked e q w r hr]
  | committed v' =>
    rw [set_of_committed e q w v' hr]
    show getAt (setAt e.root (parse q) v') (parse p) = e.get p
    rw [setAt, getAt_setAtO_diverges _ _ _ _ h, getAtO_some]
    rfl

theorem commitValO_of_not_bothObj (o : Option Val) (v : Val) (h : bothObj o v = false) :
    commitValO o v = v := by
  cases o with
  | none => rfl
  | some w => cases w <;> cases v <;> first | rfl | simp [bothObj] at h

/-- The last value of a nonempty event sequence, given as the head value
plus the remaining timed events. -/
def lastVal : Val → List (Nat × Val) → Val
  | v, [] => v
  | _, (_, w) :: rest => lastVal w rest

theorem debounce_single_path (d : Nat) (P : String) :
    ∀ (evs : List (Nat × Val)) (t : Nat) (v : Val),
      List.Chain (fun a b => b.1 < a.1 + d) (t, v) evs →
      debounceRun d (evs.map (fun tv => (tv.1, P, tv.2))) [⟨P, v, t + d⟩] =
        [(P, lastVal v evs)] := by
  intro evs
  induction evs with
  | nil => intro t v _; rfl
  | cons hd tl ih =>
    intro t v hch
    obtain ⟨t2, v2⟩ := hd
    rw [List.chain_cons] at hch
    obtain ⟨ht2, hch2⟩ := hch
    have hnotdue : ¬ (t + d ≤ t2) := by omega
    show debounceRun d ((t2, P, v2) :: tl.map (fun tv => (tv.1, P, tv.2)))
        [⟨P, v, t + d⟩] = [(P, lastVal v ((t2, v2) :: tl))]
    rw [debounceRun]
    have hstep : debounceStep d [⟨P, v, t + d⟩] t2 P v2 = ([], [⟨P, v2, t2 + d⟩]) := by
      simp [debounceStep, hnotdue, ht2]
    rw [hstep]
    show debounceRun d (tl.map (fun tv => (tv.1, P, tv.2))) [⟨P, v2, t2 + d⟩] =
      [(P, lastVal v2 tl)]
    exact ih t2 v2 hch2

/-! The claims. -/

/-- Claim C1, as frozen, is false on the model: with no middleware, after
set of a mapping value over an existing mapping, get returns the shallow
merge, not the set value itself. Concretely, from root with key a mapped
to the mapping (x to 1), setting the mapping (y to 2) at path a makes get
of a return the mapping (x to 1, y to 2), which is not the set value. -/
theorem claim_C1_counterexample :
    ¬ (((initTreeState (Val.vobj [("a", Val.vobj [("x", Val.vnat 1)])]) []).set "a"
          (Val.vobj [("y", Val.vnat 2)])).2.get "a" =
        some (Val.vobj [("y", Val.vnat 2)])) := by
  intro hcl
  rw [show ((initTreeState (Val.vobj [("a", Val.vobj [("x", Val.vnat 1)])]) []).set "a"
        (Val.vobj [("y", Val.vnat 2)])).2.get "a" =
      some (Val.vobj [("x", Val.vnat 1), ("y", Val.vnat 2)]) from rfl] at hcl
  simp at hcl

/-- Claim C1 (amended): for every path P and value V, with no blocking
middleware installed, set of P and V followed by get of P returns a value
deep-equal to the committed value — V itself unless both V and the
previous value at P are mappings, in which case their shallow merge — and
the set call reports exactly that committed value; moreover the value at P
is preserved by any later successful or blocked set at a path that is
neither an ancestor, a descendant, nor an exact match of P. -/
theorem claim_C1 :
    (∀ (e : Engine) (P : String) (v : Val), e.middleware = [] →
        (e.set P v).2.get P = some (commitValO (e.get P) v) ∧
        (e.set P v).1.outcome = SetOutcome.committed (commitValO (e.get P) v)) ∧
    (∀ (e : Engine) (P Q : String) (w : Val), diverges (parse Q) (parse P) = true →
        ((e.set Q w).2).get P = e.get P) := by
  constructor
  · intro e P v h
    refine ⟨set_get_same_of_no_middleware e P v h, ?_⟩
    have hrun : runPipeline e.middleware P v (getAt e.root (parse P)) =
        SetOutcome.committed v := by rw [h]; rfl
    rw [set_of_committed e P v v hrun]
    rfl
  · intro e P Q w h
    exact set_get_frame e P Q w h

/-- Witness for claim C1 at concrete inputs: a scalar round-trips through
set and get on an empty root, and a set at the unrelated path b leaves the
value at path a untouched. -/
theorem claim_C1_witness :
    ((initTreeState (Val.vobj []) []).set "user" (Val.vnat 5)).2.get "user" =
      some (Val.vnat 5) ∧
    (((initTreeState (Val.vobj [("a", Val.vnat 1)]) []).set "b" (Val.vnat 2)).2).get "a" =
      some (Val.vnat 1) := by
  constructor
  · exact (claim_C1.1 (initTreeState (Val.vobj []) []) "user" (Val.vnat 5) rfl).1
  · exact claim_C1.2 (initTreeState (Val.vobj [("a", Val.vnat 1)]) []) "a" "b"
      (Val.vnat 2) rfl

/-- Claim C2: middleware run strictly in registration order, each stage
receiving the previous stage's output as nextValue (appending a pipeline
suffix continues from the prefix's accepted value and is ignored once the
prefix blocks); a stage returning the rejection signal or a reason string
halts the chain at once with a blocked outcome regardless of the later
stages; and a blocked pipeline leaves the engine untouched, notifies no
subscriber and reports the blocked outcome with its reason to the caller. -/
theorem claim_C2 :
    (∀ (ms ns : List Middleware) (p : String) (v : Val) (prev : Option Val),
        runPipeline (ms ++ ns) p v prev =
          match runPipeline ms p v prev with
          | SetOutcome.committed v' => runPipeline ns p v' prev
          | SetOutcome.blocked r => SetOutcome.blocked r) ∧
    (∀ (m : Middleware) (ms : List Middleware) (p : String) (v : Val) (prev : Option Val),
        (m p v prev = MWResult.reject →
          runPipeline (m :: ms) p v prev = SetOutcome.blocked none) ∧
        (∀ s, m p v prev = MWResult.rejectReason s →
          runPipeline (m :: ms) p v prev = SetOutcome.blocked (some s)) ∧
        (∀ v', m p v prev = MWResult.accept v' →
          runPipeline (m :: ms) p v prev = runPipeline ms p v' prev)) ∧
    (∀ (e : Engine) (path : String) (v : Val) (r : Option String),
        runPipeline e.middleware path v (getAt e.root (parse path)) =
          SetOutcome.blocked r →
        (e.set path v).1.outcome = SetOutcome.blocked r ∧
        (e.set path v).2 = e ∧
        (e.set path v).1.notifications = []) := by
  refine ⟨runPipeline_append, ?_, ?_⟩
  · intro m ms p v prev
    refine ⟨?_, ?_, ?_⟩
    · intro h; rw [runPipeline, h]
    · intro s h; rw [runPipeline, h]
    · intro v' h; rw [runPipeline, h]
  · intro e path v r h
    rw [set_of_blocked e path v r h]
    exact ⟨rfl, rfl, rfl⟩

/-- Witness for claim C2: a middleware returning the rejection signal
leaves the engine unchanged and produces no notification. -/
theorem claim_C2_witness :
    ((initTreeState (Val.vobj [("age", Val.vnat 30)])
        [fun _ _ _ => MWResult.reject]).set "age" (Val.vnat 200)).2 =
      initTreeState (Val.vobj [("age", Val.vnat 30)]) [fun _ _ _ => MWResult.reject] ∧
    ((initTreeState (Val.vobj [("age", Val.vnat 30)])
        [fun _ _ _ => MWResult.reject]).set "age" (Val.vnat 200)).1.notifications = [] := by
  have h := claim_C2.2.2 (initTreeState (Val.vobj [("age", Val.vnat 30)])
      [fun _ _ _ => MWResult.reject]) "age" (Val.vnat 200) none rfl
  exact ⟨h.2.1, h.2.2⟩

/-- Claim C3: when the value being set and the value already present at
the path are both mappings, set shallow-merges them (a key of the new
mapping wins, every other existing key is preserved); otherwise the new
value replaces the old outright; and concretely from root with a mapped to
(x to 1), setting (y to 2) at path a yields the root with a mapped to
(x to 1, y to 2). -/
theorem claim_C3 :
    (∀ (e : Engine) (P : String) (old news : List (String × Val)),
        e.middleware = [] → e.get P = some (Val.vobj old) →
        (e.set P (Val.vobj news)).2.get P = some (Val.vobj (mergeObj old news))) ∧
    (∀ (old news : List (String × Val)) (k : String), (news.map Prod.fst).Nodup →
        lookupKey (mergeObj old news) k =
          match lookupKey news k with
          | some v => some v
          | none => lookupKey old k) ∧
    (∀ (e : Engine) (P : String) (v : Val), e.middleware = [] →
        bothObj (e.get P) v = false → (e.set P v).2.get P = some v) ∧
    ((initTreeState (Val.vobj [("a", Val.vobj [("x", Val.vnat 1)])]) []).set "a"
        (Val.vobj [("y", Val.vnat 2)])).2.root =
      Val.vobj [("a", Val.vobj [("x", Val.vnat 1), ("y", Val.vnat 2)])] := by
  refine ⟨?_, lookupKey_mergeObj, ?_, rfl⟩
  · intro e P old news hm hold
    have h1 := set_get_same_of_no_middleware e P (Val.vobj news) hm
    rw [hold] at h1
    exact h1
  · intro e P v hm hb
    have h1 := set_get_same_of_no_middleware e P v hm
    rw [commitValO_of_not_bothObj (e.get P) v hb] at h1
    exact h1

/-- Witness for claim C3: in the merge of (x to 1) with (y to 2), the
existing sibling key x keeps its value. -/
theorem claim_C3_witness :
    lookupKey (mergeObj [("x", Val.vnat 1)] [("y", Val.vnat 2)]) "x" =
      some (Val.vnat 1) := by
  have h := claim_C3.2.1 [("x", Val.vnat 1)] [("y", Val.vnat 2)] "x" (by simp)
  exact h

/-- Claim C4: pattern matching holds exactly when both paths have the same
segment count and at every position the pattern segment is the wildcard
token or equals the concrete segment; and the four concrete examples from
the spec behave as stated. -/
theorem claim_C4 :
    (∀ (pat c : List String),
        matchesPat pat c = true ↔
          pat.length = c.length ∧
          ∀ i, i < pat.length →
            (pat.getD i "" = "*" ∨ pat.getD i "" = c.getD i "")) ∧
    matchesPat (parse "user/*") (parse "user/name") = true ∧
    matchesPat (parse "user/*") (parse "user/age") = true ∧
    matchesPat (parse "user/*") (parse "user/profile/city") = false ∧
    matchesPat (parse "user/*") (parse "admin/name") = false := by
  refine ⟨?_, rfl, rfl, rfl, rfl⟩
  intro pat c
  induction pat generalizing c with
  | nil =>
    cases c with
    | nil => simp [matchesPat]
    | cons b bs => simp [matchesPat]
  | cons a as ih =>
    cases c with
    | nil => simp [matchesPat]
    | cons b bs =>
      rw [matchesPat]
      simp only [Bool.and_eq_true, Bool.or_eq_true, beq_iff_eq]
      constructor
      · intro h
        obtain ⟨hab, hrest⟩ := h
        have hih := (ih bs).mp hrest
        refine ⟨by simp [hih.1], ?_⟩
        intro i hi
        cases i with
        | zero => simpa using hab
        | succ n =>
          have hn : n < as.length := by simpa using hi
          simpa using hih.2 n hn
      · intro h
        obtain ⟨hlen, hidx⟩ := h
        refine ⟨by simpa using hidx 0 (by simp), ?_⟩
        refine (ih bs).mpr ⟨by simpa using hlen, ?_⟩
        intro n hn
        simpa using hidx (n + 1) (by simpa using hn)

/-- Witness for claim C4: a direct application of the characterization to
a concrete pattern and path. -/
theorem claim_C4_witness :
    matchesPat ["user", "*"] ["user", "kind"] = true :=
  (claim_C4.1 ["user", "*"] ["user", "kind"]).mpr ⟨rfl, by decide⟩

/-- Claim C5: setAt returns a new root with the committed value placed at
the path, and every subtree at a path that diverges from the written one
is observationally the very value of the original root (in this pure
model, object sharing is value identity, and the original root itself is
never mutated). -/
theorem claim_C5 :
    (∀ (root : Val) (segs : List String) (v : Val),
        getAt (setAt root segs v) segs = some (commitValO (getAt root segs) v)) ∧
    (∀ (root : Val) (segs q : List String) (v : Val), diverges segs q = true →
        getAt (setAt root segs v) q = getAt root q) := by
  constructor
  · intro root segs v
    rw [setAt, getAt_setAtO, getAtO_some]
  · intro root segs q v h
    rw [setAt, getAt_setAtO_diverges _ _ _ _ h, getAtO_some]

/-- Witness for claim C5: writing at path a leaves the sibling subtree at
path b exactly as it was. -/
theorem claim_C5_witness :
    getAt (setAt (Val.vobj [("a", Val.vnat 1), ("b", Val.vnat 2)]) ["a"] (Val.vnat 9))
        ["b"] =
      getAt (Val.vobj [("a", Val.vnat 1), ("b", Val.vnat 2)]) ["b"] :=
  claim_C5.2 (Val.vobj [("a", Val.vnat 1), ("b", Val.vnat 2)]) ["a"] ["b"]
    (Val.vnat 9) rfl

/-- Claim C6: with debounce middleware of delay d, a sequence of arrivals
on one path whose successive arrival times (including the gap after the
first) are each less than d apart commits exactly one value — the last of
the sequence — and a subscriber on that path receives exactly one
notification, carrying that value; every earlier pending update is
discarded, never committed. -/
theorem claim_C6 :
    ∀ (d : Nat) (P : String) (t1 : Nat) (v1 : Val) (evs : List (Nat × Val)),
      List.Chain (fun a b => b.1 < a.1 + d) (t1, v1) evs →
      debounceRun d (((t1, v1) :: evs).map (fun tv => (tv.1, P, tv.2))) [] =
        [(P, lastVal v1 evs)] ∧
      ∀ sid : Nat,
        commitsToNotifs [⟨sid, parse P⟩]
            (debounceRun d (((t1, v1) :: evs).map (fun tv => (tv.1, P, tv.2))) []) =
          [(sid, lastVal v1 evs)] := by
  intro d P t1 v1 evs hch
  have hrun : debounceRun d (((t1, v1) :: evs).map (fun tv => (tv.1, P, tv.2))) [] =
      [(P, lastVal v1 evs)] := by
    show debounceRun d ((t1, P, v1) :: evs.map (fun tv => (tv.1, P, tv.2))) [] = _
    rw [debounceRun]
    show debounceRun d (evs.map (fun tv => (tv.1, P, tv.2))) [⟨P, v1, t1 + d⟩] = _
    exact debounce_single_path d P evs t1 v1 hch
  refine ⟨hrun, ?_⟩
  intro sid
  rw [hrun]
  simp [commitsToNotifs, matchesPat_refl]

/-- Witness for claim C6: three arrivals on path q within a 300 tick
debounce window commit only the final value abc. -/
theorem claim_C6_witness :
    debounceRun 300 [(0, "q", Val.vstr "a"), (100, "q", Val.vstr "ab"),
        (200, "q", Val.vstr "abc")] [] = [("q", Val.vstr "abc")] := by
  have h := (claim_C6 300 "q" 0 (Val.vstr "a")
      [(100, Val.vstr "ab"), (200, Val.vstr "abc")]
      (List.Chain.cons (by decide) (List.Chain.cons (by decide) List.Chain.nil))).1
  exact h

/-- Claim C7: get of a path equals getAt of the parsed path on the root
and is total (the model returns an optional value, never an error); getAt
yields none exactly when the walk hits a missing segment or a non-mapping
value, so a nonexistent path always yields undefined; concretely a deep
missing path on a small root yields none. -/
theorem claim_C7 :
    (∀ (root : Val) (segs : List String),
        getAt root segs = none ↔ pathMissing root segs = true) ∧
    (∀ (e : Engine) (p : String), e.get p = getAt e.root (parse p)) ∧
    (initTreeState (Val.vobj [("user", Val.vobj [("age", Val.vnat 30)])]) []).get
        "user/missing/deep" = none := by
  refine ⟨?_, fun e p => rfl, rfl⟩
  intro root segs
  induction segs generalizing root with
  | nil => simp [getAt, pathMissing]
  | cons s rest ih =>
    cases root with
    | vobj kvs =>
      rw [getAt, pathMissing]
      cases h : lookupKey kvs s with
      | none => simp
      | some c => simpa using ih c
    | vstr a => simp [getAt, pathMissing]
    | vnat a => simp [getAt, pathMissing]
    | vbool a => simp [getAt, pathMissing]
    | vnull => simp [getAt, pathMissing]
    | varr a => simp [getAt, pathMissing]

/-- Witness for claim C7: a missing key on an empty mapping is reported as
a missing path, so get yields none there. -/
theorem claim_C7_witness : getAt (Val.vobj []) ["nope"] = none :=
  (claim_C7.1 (Val.vobj []) ["nope"]).mpr rfl

/-- Claim C8: invoking the unsubscribe of a token removes exactly the
registration carrying that token (every other subscription survives
untouched), is idempotent (a second invocation leaves the engine exactly
as the first did, raising no error since it is a total operation), and
after it no set delivers any notification to that token. -/
theorem claim_C8 :
    (∀ (e : Engine) (i : Nat) (s : Subscription),
        s ∈ (e.unsubscribe i).subs ↔ s ∈ e.subs ∧ s.id ≠ i) ∧
    (∀ (e : Engine) (i : Nat), (e.unsubscribe i).unsubscribe i = e.unsubscribe i) ∧
    (∀ (e : Engine) (i : Nat) (p : String) (v : Val),
        ∀ n ∈ ((e.unsubscribe i).set p v).1.notifications, n.1 ≠ i) := by
  refine ⟨?_, ?_, ?_⟩
  · intro e i s
    simp [Engine.unsubscribe, List.mem_filter]
  · intro e i
    simp only [Engine.unsubscribe]
    rw [filterTwice]
  · intro e i p v n hn
    cases hr : runPipeline (e.unsubscribe i).middleware p v
        (getAt (e.unsubscribe i).root (parse p)) with
    | blocked r =>
      rw [set_of_blocked _ p v r hr] at hn
      simp at hn
    | committed v' =>
      rw [set_of_committed _ p v v' hr] at hn
      simp only [List.mem_map, List.mem_filter, Engine.unsubscribe] at hn
      obtain ⟨s, ⟨⟨hs, hsi⟩, hpat⟩, hns⟩ := hn
      rw [← hns]
      simpa using hsi

/-- Witness for claim C8: removing token 0 from a registry of tokens 0 and
1 keeps the registration of token 1. -/
theorem claim_C8_witness :
    Subscription.mk 1 ["a"] ∈
      ((Engine.mk Val.vnull [] [Subscription.mk 0 ["a"], Subscription.mk 1 ["a"]] 2).unsubscribe
        0).subs :=
  (claim_C8.1 (Engine.mk Val.vnull []
      [Subscription.mk 0 ["a"], Subscription.mk 1 ["a"]] 2) 0
      (Subscription.mk 1 ["a"])).mpr ⟨by simp, by simp⟩

/-- Claim C9: stores made by separate createBonsaiStore calls are fully
isolated — two successive creations hand out distinct store identities, a
set on one store leaves every other store's state (hence its get)
unchanged, and every notification of that set belongs to the written
store. -/
theorem claim_C9 :
    (∀ (w : World), (createBonsaiStore w).1 ≠ (createBonsaiStore (createBonsaiStore w).2).1) ∧
    (∀ (w : World) (i j : Nat) (p : List (String × Val)), j ≠ i →
        ((storeSet w i p).1).stores j = w.stores j ∧
        storeGet (storeSet w i p).1 j = storeGet w j ∧
        ∀ n ∈ (storeSet w i p).2, n.1 = i) := by
  constructor
  · intro w
    simp [createBonsaiStore]
  · intro w i j p hj
    refine ⟨?_, ?_, ?_⟩
    · simp [storeSet, hj]
    · simp [storeSet, storeGet, hj]
    · intro n hn
      simp only [storeSet, List.mem_map] at hn
      obtain ⟨sid, _, hs⟩ := hn
      rw [← hs]

/-- Witness for claim C9: a set on store 0 leaves store 1 exactly as it
was. -/
theorem claim_C9_witness :
    ((storeSet (World.mk (fun _ => emptyStore) 0) 0 [("k", Val.vnat 1)]).1).stores 1 =
      (World.mk (fun _ => emptyStore) 0).stores 1 :=
  (claim_C9.2 (World.mk (fun _ => emptyStore) 0) 0 1 [("k", Val.vnat 1)] (by decide)).1

/-- Claim C10: a scoped store's set merges the given record shallowly into
the current state — a key absent from the record keeps its previous value,
a key present in the record takes the record's value — and a subsequent
get returns the merged state. -/
theorem claim_C10 :
    ∀ (st : FlatStore) (p : List (String × Val)) (k : String),
      (p.map Prod.fst).Nodup →
      ((lookupKey p k = none →
          lookupKey (st.set p).state k = lookupKey st.state k) ∧
       (∀ v, lookupKey p k = some v → lookupKey (st.set p).state k = some v) ∧
       (st.set p).get = mergeObj st.state p) := by
  intro st p k hnd
  refine ⟨?_, ?_, rfl⟩
  · intro hnone
    have h := lookupKey_mergeObj st.state p k hnd
    rw [hnone] at h
    exact h
  · intro v hv
    have h := lookupKey_mergeObj st.state p k hnd
    rw [hv] at h
    exact h

/-- Witness for claim C10: setting only the count key keeps the flag key's
previous value. -/
theorem claim_C10_witness :
    lookupKey ((FlatStore.mk [("count", Val.vnat 1), ("flag", Val.vbool true)] [] 0).set
        [("count", Val.vnat 2)]).state "flag" =
      lookupKey [("count", Val.vnat 1), ("flag", Val.vbool true)] "flag" :=
  ((claim_C10 (FlatStore.mk [("count", Val.vnat 1), ("flag", Val.vbool true)] [] 0)
      [("count", Val.vnat 2)] "flag" (by simp)).1) rfl

end Bonsai
